import Mathlib

/-!
Verification development for the Luxe Threads storefront core:
the catalog filter/sort engine (`Pages/Shop.js`) and the dual-mode cart
state manager with its guest-cart merge (`Pages/Cart.js`).

Conventions of the embedding:
* opaque store identifiers (product ids, cart-line ids) are modelled as `Nat`;
* JS numbers that carry money, ratings or timestamps are modelled as exact
  rationals (`Rat`) resp. integers (`Int`); the literal `0.08` becomes `8/100`;
* JS arrays become `List`, object maps become association lists looked up by
  key, and `Array.prototype.sort` (stable since ES2019) becomes `List.mergeSort`
  on the boolean relation `comparator a b ≤ 0`;
* the asynchronous control flow of `mergeCarts` (try / catch / finally around
  `Promise.all`) is embedded as a pure function from the list of per-line
  operation outcomes to the externally visible effects.
-/

/-- A catalog product as served by the product store and consumed by
`Shop.js` / `Cart.js`.  `brand`, `description` and `rating` are optional
fields (`product.brand?.` and `product.rating || 0` in the source). -/
structure Product where
  id : Nat
  name : String
  brand : Option String
  category : String
  price : Rat
  stock : Nat
  rating : Option Rat
  description : Option String
  image_url : String
  created_date : Int
deriving DecidableEq, Repr

/-- One line of the anonymous (guest) cart held in the `anonymousCart`
local-storage blob.  Carries the denormalized product snapshot that
`Shop.js` `handleAddToCart` writes (`name`, `price`, `image_url`, `brand`). -/
structure GuestLine where
  product_id : Nat
  quantity : Nat
  name : String
  price : Rat
  image_url : String
  brand : Option String
deriving DecidableEq, Repr

/-- One remote cart line as stored by the `CartItem` entity: a
store-assigned `id` plus `product_id`, `quantity`, `user_email`. -/
structure DbCartItem where
  id : Nat
  product_id : Nat
  quantity : Nat
  user_email : String
deriving DecidableEq, Repr

/-- The `filters` state object of `Shop.js` (lines 33-38): selected
categories, selected brands, inclusive price range, in-stock toggle.
`priceRange` is always an array in the source, so it is a plain pair here
(the `if (filters.priceRange)` guard is always taken). -/
structure FilterSpec where
  categories : List String
  brands : List String
  priceRange : Rat × Rat
  inStock : Bool
deriving DecidableEq, Repr

/-- The five values the `sortBy` select of `Shop.js` can take; `name`
is also the `default` branch of the comparator switch. -/
inductive SortKey where
  | name
  | priceLow
  | priceHigh
  | rating
  | newest
deriving DecidableEq, Repr

/-- Case-insensitive JS `String.prototype.includes`:
`hay.toLowerCase().includes(needle.toLowerCase())`. -/
def strContains (hay needle : String) : Bool :=
  decide (needle.toLower.toList <:+: hay.toLower.toList)

/-- Search filter of `applyFilters` (Shop.js lines 69-75): when the search
term is non-empty keep products whose name, description or brand contains
it case-insensitively; the optional chaining on `description?.` / `brand?.`
makes a missing field non-matching. -/
def searchFilter (searchTerm : String) (l : List Product) : List Product :=
  if searchTerm ≠ "" then
    l.filter (fun product =>
      strContains product.name searchTerm ||
      (match product.description with
       | some d => strContains d searchTerm
       | none => false) ||
      (match product.brand with
       | some b => strContains b searchTerm
       | none => false))
  else l

/-- Category filter of `applyFilters` (Shop.js lines 78-82): active only
when at least one category is selected. -/
def categoryFilter (fs : FilterSpec) (l : List Product) : List Product :=
  if fs.categories.length > 0 then
    l.filter (fun product => fs.categories.contains product.category)
  else l

/-- Brand filter of `applyFilters` (Shop.js lines 85-89): same policy as
the category filter; a product without a brand never matches. -/
def brandFilter (fs : FilterSpec) (l : List Product) : List Product :=
  if fs.brands.length > 0 then
    l.filter (fun product =>
      match product.brand with
      | some b => fs.brands.contains b
      | none => false)
  else l

/-- Price filter of `applyFilters` (Shop.js lines 92-97): keep products
whose price lies within the inclusive range. -/
def priceFilter (fs : FilterSpec) (l : List Product) : List Product :=
  l.filter (fun product =>
    decide (fs.priceRange.1 ≤ product.price) &&
    decide (product.price ≤ fs.priceRange.2))

/-- Stock filter of `applyFilters` (Shop.js lines 100-102). -/
def stockFilter (fs : FilterSpec) (l : List Product) : List Product :=
  if fs.inStock then l.filter (fun product => decide (0 < product.stock)) else l

/-- Model of `a.name.localeCompare(b.name)`: a three-valued comparator
induced by a total order on strings. -/
def nameCmp (a b : String) : Rat :=
  if a < b then -1 else if b < a then 1 else 0

/-- The comparator passed to `filtered.sort` in `applyFilters`
(Shop.js lines 105-118), as a signed rational. -/
def sortCmp (k : SortKey) (a b : Product) : Rat :=
  match k with
  | .priceLow => a.price - b.price
  | .priceHigh => b.price - a.price
  | .rating => (b.rating.getD 0) - (a.rating.getD 0)
  | .newest => ((b.created_date - a.created_date : Int) : Rat)
  | .name => nameCmp a.name b.name

/-- The stable sort step of `applyFilters`: `filtered.sort(comparator)`;
a stable sort keeps `a` before `b` whenever `comparator a b ≤ 0`. -/
def sortProducts (k : SortKey) (l : List Product) : List Product :=
  l.mergeSort (fun a b => decide (sortCmp k a b ≤ 0))

/-- The whole `applyFilters` pipeline of `Shop.js` (lines 65-121):
search, category, brand, price and stock filters in source order,
then the sort. -/
def applyFilters (products : List Product) (searchTerm : String)
    (fs : FilterSpec) (k : SortKey) : List Product :=
  sortProducts k
    (stockFilter fs
      (priceFilter fs
        (brandFilter fs
          (categoryFilter fs
            (searchFilter searchTerm products)))))

/-- Names for the five filter stages of `applyFilters`, used to state
that the stages commute pairwise. -/
inductive FilterStep where
  | text
  | category
  | brand
  | price
  | stock
deriving DecidableEq, Repr

/-- Dispatch a single filter stage of `applyFilters`. -/
def runFilterStep : FilterStep → String → FilterSpec → List Product → List Product
  | .text, searchTerm, _, l => searchFilter searchTerm l
  | .category, _, fs, l => categoryFilter fs l
  | .brand, _, fs, l => brandFilter fs l
  | .price, _, fs, l => priceFilter fs l
  | .stock, _, fs, l => stockFilter fs l

/-- The initial `filters` state of `Shop.js` (lines 33-38). -/
def initialFilters : FilterSpec :=
  { categories := []
    brands := []
    priceRange := (0, 1000)
    inStock := false }

/-- The `filters` state written by `clearFilters` (Shop.js lines 190-198). -/
def clearedFilters : FilterSpec :=
  { categories := []
    brands := []
    priceRange := (0, 1000)
    inStock := false }

/-- `CartItem.update(id, {quantity})`: set the quantity of the remote line
with the given store id, leaving every other line unchanged. -/
def updateQty (db : List DbCartItem) (lineId q : Nat) : List DbCartItem :=
  db.map (fun it => if it.id == lineId then { it with quantity := q } else it)

/-- `new Map(items.map(item => [item.product_id, item])).get(pid)`:
with duplicate keys the later entry wins, so this is the last line of the
list with the given product reference. -/
def mapGet (items : List DbCartItem) (pid : Nat) : Option DbCartItem :=
  items.reverse.find? (fun it => it.product_id == pid)

/-- One per-line operation of `mergeCarts` (Cart.js lines 30-43): look the
guest line up in the snapshot map taken before any operation was issued;
if a remote line exists, set its quantity to `snapshot.quantity +
guest.quantity`, otherwise create a new line (with a fresh store id,
modelled by the counter threaded through the state). -/
def mergeStep (snap : List DbCartItem) (userEmail : String)
    (s : List DbCartItem × Nat) (localItem : GuestLine) : List DbCartItem × Nat :=
  match mapGet snap localItem.product_id with
  | some dbItem =>
      (updateQty s.1 dbItem.id (dbItem.quantity + localItem.quantity), s.2)
  | none =>
      (s.1 ++ [{ id := s.2
                 product_id := localItem.product_id
                 quantity := localItem.quantity
                 user_email := userEmail }], s.2 + 1)

/-- The effect of `mergeCarts(localCart, userEmail)` (Cart.js lines 24-64)
on the remote cart store when every per-line operation succeeds: the
snapshot `dbCartItems = CartItem.filter({user_email})` is taken once, then
each guest line issues its update/create against the store.  `freshId` is
the first store id the store will assign to created lines; established
stores assign ids never used before, modelled as `freshId` larger than
every existing id. -/
def mergeCarts (localCart : List GuestLine) (userEmail : String)
    (db : List DbCartItem) (freshId : Nat) : List DbCartItem :=
  let dbCartItems := db.filter (fun it => it.user_email == userEmail)
  (localCart.foldl (mergeStep dbCartItems userEmail) (db, freshId)).1

/-- The externally visible effects of one `mergeCarts` run. -/
structure MergeEffects where
  localStorageCleared : Bool
  successToast : Bool
  errorToast : Bool
  cartUpdatedEvent : Bool
  isMergingAfter : Bool
deriving DecidableEq, Repr

/-- `Promise.all` over the per-line operations: resolves exactly when every
operation succeeded, rejects when at least one failed. -/
def promiseAll (results : List Bool) : Except Unit Unit :=
  if results.all (fun b => b) then .ok () else .error ()

/-- Control flow of `mergeCarts` (Cart.js lines 24-64) as a function of the
per-line operation outcomes: the `try` block awaits `Promise.all`, and only
then removes the `anonymousCart` blob and shows the success toast; the
`catch` block shows the destructive error toast; the `finally` block always
clears `isMerging` and dispatches the `cartUpdated` event. -/
def mergeCartsEffects (results : List Bool) : MergeEffects :=
  let afterTryCatch : MergeEffects :=
    match promiseAll results with
    | .ok _ =>
        { localStorageCleared := true
          successToast := true
          errorToast := false
          cartUpdatedEvent := false
          isMergingAfter := true }
    | .error _ =>
        { localStorageCleared := false
          successToast := false
          errorToast := true
          cartUpdatedEvent := false
          isMergingAfter := true }
  { afterTryCatch with isMergingAfter := false, cartUpdatedEvent := true }

/-- Whether `loadUser` (Cart.js lines 66-78) invokes `mergeCarts`:
it does exactly when the parsed `anonymousCart` blob is non-empty and the
current user has an email.  The component state `isMerging` is passed so
that claims about a re-entrancy guard can be stated: the source condition
`localCart.length > 0 && currentUser?.email` never reads it. -/
def loadUserInvokesMerge (localCart : List GuestLine)
    (userEmail : Option String) (_isMerging : Bool) : Bool :=
  decide (localCart.length > 0) && userEmail.isSome

/-- `getSubtotal` (Cart.js lines 207-212): left fold over the cart lines,
adding `product.price * quantity` when the product reference resolves in
the `products` map and `0` otherwise. -/
def getSubtotal (cartItems : List DbCartItem) (products : List (Nat × Product)) : Rat :=
  cartItems.foldl
    (fun total item =>
      total + (match products.lookup item.product_id with
               | some product => product.price * item.quantity
               | none => 0))
    0

/-- `getTax` (Cart.js lines 214-216): 8% of the subtotal. -/
def getTax (cartItems : List DbCartItem) (products : List (Nat × Product)) : Rat :=
  getSubtotal cartItems products * (8 / 100)

/-- `getTotal` (Cart.js lines 218-220). -/
def getTotal (cartItems : List DbCartItem) (products : List (Nat × Product)) : Rat :=
  getSubtotal cartItems products + getTax cartItems products

/-- Spec-side subtotal, written after the specification sentence
"subtotal = Σ(product.price × line.quantity) over lines whose product
resolves ... Lines whose product is unresolved contribute zero": the sum,
over all lines, of the resolved price times quantity, unresolved lines
contributing zero. -/
def specSubtotal (cartItems : List DbCartItem) (products : List (Nat × Product)) : Rat :=
  (cartItems.map (fun item =>
    match products.lookup item.product_id with
    | some product => product.price * item.quantity
    | none => 0)).sum

/-- The denormalized snapshot `handleAddToCart` pushes for a product not
yet in the anonymous cart (Shop.js line 172). -/
def guestSnapshot (p : Product) : GuestLine :=
  { product_id := p.id
    quantity := 1
    name := p.name
    price := p.price
    image_url := p.image_url
    brand := p.brand }

/-- `anonymousCart[existingItemIndex].quantity += 1`: bump the quantity of
the first line with the given product reference. -/
def incFirst (cart : List GuestLine) (pid : Nat) : List GuestLine :=
  match cart with
  | [] => []
  | it :: rest =>
      if it.product_id == pid then { it with quantity := it.quantity + 1 } :: rest
      else it :: incFirst rest pid

/-- Anonymous branch of `handleAddToCart` (Shop.js lines 164-180):
`findIndex` then either increment in place or push a snapshot line. -/
def addToCartAnon (cart : List GuestLine) (p : Product) : List GuestLine :=
  if cart.any (fun it => it.product_id == p.id) then incFirst cart p.id
  else cart ++ [guestSnapshot p]

/-- Authenticated branch of `handleAddToCart` (Shop.js lines 133-163):
filter remote lines by email and product id; update the first match with
quantity + 1, else create a line with quantity 1.  Returns the new store
contents together with the next fresh id. -/
def addToCartAuth (db : List DbCartItem) (userEmail : String) (p : Product)
    (freshId : Nat) : List DbCartItem × Nat :=
  match db.filter (fun it => it.user_email == userEmail && it.product_id == p.id) with
  | existingItem :: _ =>
      (updateQty db existingItem.id (existingItem.quantity + 1), freshId)
  | [] =>
      (db ++ [{ id := freshId
                product_id := p.id
                quantity := 1
                user_email := userEmail }], freshId + 1)

/-- Anonymous branch of `updateQuantity` (Cart.js lines 134-166): a
quantity below 1 returns before touching anything; otherwise the blob is
rewritten with the matching entries replaced.  The new quantity arrives as
an `Int` so that the claimed `-1` boundary is expressible. -/
def setQuantityAnon (cart : List GuestLine) (pid : Nat) (newQuantity : Int) :
    List GuestLine :=
  if newQuantity < 1 then cart
  else cart.map (fun it =>
    if it.product_id == pid then { it with quantity := newQuantity.toNat } else it)

/-- Authenticated branch of `updateQuantity` (Cart.js lines 134-166): a
quantity below 1 returns first; the line is located in the loaded
`cartItems` state (the remote lines of this email) and updated by its
store id; a missing line returns without any store write. -/
def setQuantityAuth (db : List DbCartItem) (userEmail : String) (pid : Nat)
    (newQuantity : Int) : List DbCartItem :=
  if newQuantity < 1 then db
  else
    match (db.filter (fun it => it.user_email == userEmail)).find?
        (fun item => item.product_id == pid) with
    | none => db
    | some cartItem => updateQty db cartItem.id newQuantity.toNat

/-- Anonymous branch of `removeItem` (Cart.js lines 168-205): filter the
blob down to the other product references. -/
def removeLineAnon (cart : List GuestLine) (pid : Nat) : List GuestLine :=
  cart.filter (fun it => !(it.product_id == pid))

/-- Authenticated branch of `removeItem` (Cart.js lines 168-205): locate
the line in the loaded state; a missing line returns without any store
write, otherwise `CartItem.delete(id)` removes it. -/
def removeLineAuth (db : List DbCartItem) (userEmail : String) (pid : Nat) :
    List DbCartItem :=
  match (db.filter (fun it => it.user_email == userEmail)).find?
      (fun item => item.product_id == pid) with
  | none => db
  | some cartItem => db.filter (fun it => !(it.id == cartItem.id))

/-- Concrete product constructor used by the witness theorems. -/
def sampleProduct (pid : Nat) (nm : String) (pr : Rat) (rt : Option Rat) : Product :=
  { id := pid
    name := nm
    brand := none
    category := "tops"
    price := pr
    stock := 5
    rating := rt
    description := none
    image_url := ""
    created_date := 0 }

theorem filter_swap (p q : Product → Bool) (l : List Product) :
    (l.filter p).filter q = (l.filter q).filter p := by
  rw [List.filter_filter, List.filter_filter]
  exact List.filter_congr (fun a _ => Bool.and_comm _ _)

theorem runFilterStep_shape (s : FilterStep) (term : String) (fs : FilterSpec) :
    (∀ l, runFilterStep s term fs l = l) ∨
    ∃ p, ∀ l, runFilterStep s term fs l = l.filter p := by
  cases s
  case text =>
    by_cases h : term = ""
    · exact Or.inl (fun l => by simp [runFilterStep, searchFilter, h])
    · refine Or.inr ⟨fun product =>
        strContains product.name term ||
        (match product.description with
         | some d => strContains d term
         | none => false) ||
        (match product.brand with
         | some b => strContains b term
         | none => false), fun l => ?_⟩
      show searchFilter term l = _
      unfold searchFilter
      rw [if_pos h]
  case category =>
    by_cases h : fs.categories.length > 0
    · refine Or.inr ⟨fun product => fs.categories.contains product.category,
        fun l => ?_⟩
      show categoryFilter fs l = _
      unfold categoryFilter
      rw [if_pos h]
    · exact Or.inl (fun l => by simp [runFilterStep, categoryFilter, h])
  case brand =>
    by_cases h : fs.brands.length > 0
    · refine Or.inr ⟨fun product =>
        match product.brand with
        | some b => fs.brands.contains b
        | none => false, fun l => ?_⟩
      show brandFilter fs l = _
      unfold brandFilter
      rw [if_pos h]
    · exact Or.inl (fun l => by simp [runFilterStep, brandFilter, h])
  case price =>
    exact Or.inr ⟨fun product =>
      decide (fs.priceRange.1 ≤ product.price) &&
      decide (product.price ≤ fs.priceRange.2), fun l => rfl⟩
  case stock =>
    by_cases h : fs.inStock
    · refine Or.inr ⟨fun product => decide (0 < product.stock), fun l => ?_⟩
      show stockFilter fs l = _
      unfold stockFilter
      rw [if_pos h]
    · exact Or.inl (fun l => by simp [runFilterStep, stockFilter, h])

/-- Whether a product passes one filter stage, written after the
specification sentences for the five stages (an inactive stage keeps
everything). -/
def stepKeeps : FilterStep → String → FilterSpec → Product → Bool
  | .text, term, _, x =>
      if term ≠ "" then
        strContains x.name term ||
        (match x.description with
         | some d => strContains d term
         | none => false) ||
        (match x.brand with
         | some b => strContains b term
         | none => false)
      else true
  | .category, _, fs, x =>
      if fs.categories.length > 0 then fs.categories.contains x.category else true
  | .brand, _, fs, x =>
      if fs.brands.length > 0 then
        match x.brand with
        | some b => fs.brands.contains b
        | none => false
      else true
  | .price, _, fs, x =>
      decide (fs.priceRange.1 ≤ x.price) && decide (x.price ≤ fs.priceRange.2)
  | .stock, _, fs, x =>
      if fs.inStock then decide (0 < x.stock) else true

theorem mem_runFilterStep (s : FilterStep) (term : String) (fs : FilterSpec)
    (l : List Product) (x : Product) :
    x ∈ runFilterStep s term fs l ↔ x ∈ l ∧ stepKeeps s term fs x = true := by
  cases s
  case text =>
    by_cases h : term = "" <;>
      simp [runFilterStep, searchFilter, stepKeeps, h, List.mem_filter]
  case category =>
    by_cases h : fs.categories.length > 0 <;>
      simp [runFilterStep, categoryFilter, stepKeeps, h, List.mem_filter]
  case brand =>
    by_cases h : fs.brands.length > 0 <;>
      simp [runFilterStep, brandFilter, stepKeeps, h, List.mem_filter]
  case price =>
    simp [runFilterStep, priceFilter, stepKeeps, List.mem_filter]
  case stock =>
    by_cases h : fs.inStock <;>
      simp [runFilterStep, stockFilter, stepKeeps, h, List.mem_filter]

/-- C7: the five filter stages of `applyFilters` commute pairwise
(the visible set does not depend on the order the stages run in), and each
stage keeps exactly the products passing its predicate, so the stages
compose conjunctively; the sort is the only order-sensitive step and sits
outside the filter stages. -/
theorem filters_commute_and_conjunctive :
    (∀ (s₁ s₂ : FilterStep) (term : String) (fs : FilterSpec) (l : List Product),
      runFilterStep s₁ term fs (runFilterStep s₂ term fs l) =
        runFilterStep s₂ term fs (runFilterStep s₁ term fs l)) ∧
    (∀ (s : FilterStep) (term : String) (fs : FilterSpec) (l : List Product)
        (x : Product),
      x ∈ runFilterStep s term fs l ↔ x ∈ l ∧ stepKeeps s term fs x = true) := by
  refine ⟨fun s₁ s₂ term fs l => ?_, mem_runFilterStep⟩
  rcases runFilterStep_shape s₁ term fs with h₁ | ⟨p, hp⟩ <;>
    rcases runFilterStep_shape s₂ term fs with h₂ | ⟨q, hq⟩
  · rw [h₁, h₂, h₂, h₁]
  · rw [hq, h₁, h₁, hq]
  · rw [hp, h₂, h₂, hp]
  · rw [hp, hq, hq, hp]
    exact filter_swap q p l

theorem nameCmp_nonpos (a b : String) : nameCmp a b ≤ 0 ↔ a ≤ b := by
  unfold nameCmp
  by_cases hab : a < b
  · simp only [if_pos hab]
    constructor
    · intro _; exact le_of_lt hab
    · intro _; norm_num
  · by_cases hba : b < a
    · simp only [if_neg hab, if_pos hba]
      constructor
      · intro h; norm_num at h
      · intro h; exact absurd hba (not_lt.mpr h)
    · simp only [if_neg hab, if_neg hba]
      constructor
      · intro _; exact not_lt.mp hba
      · intro _; exact le_refl 0

theorem sortLe_trans (k : SortKey) (a b c : Product) :
    decide (sortCmp k a b ≤ 0) = true → decide (sortCmp k b c ≤ 0) = true →
    decide (sortCmp k a c ≤ 0) = true := by
  simp only [decide_eq_true_eq]
  cases k <;> simp only [sortCmp]
  case priceLow =>
    rw [sub_nonpos, sub_nonpos, sub_nonpos]; exact le_trans
  case priceHigh =>
    rw [sub_nonpos, sub_nonpos, sub_nonpos]
    intro h1 h2; exact le_trans h2 h1
  case rating =>
    rw [sub_nonpos, sub_nonpos, sub_nonpos]
    intro h1 h2; exact le_trans h2 h1
  case newest =>
    rw [Int.cast_nonpos, Int.cast_nonpos, Int.cast_nonpos,
      sub_nonpos, sub_nonpos, sub_nonpos]
    intro h1 h2; exact le_trans h2 h1
  case name =>
    rw [nameCmp_nonpos, nameCmp_nonpos, nameCmp_nonpos]; exact le_trans

theorem sortLe_total (k : SortKey) (a b : Product) :
    (decide (sortCmp k a b ≤ 0) || decide (sortCmp k b a ≤ 0)) = true := by
  simp only [Bool.or_eq_true, decide_eq_true_eq]
  cases k <;> simp only [sortCmp]
  case priceLow => rw [sub_nonpos, sub_nonpos]; exact le_total _ _
  case priceHigh => rw [sub_nonpos, sub_nonpos]; exact le_total _ _
  case rating => rw [sub_nonpos, sub_nonpos]; exact le_total _ _
  case newest =>
    rw [Int.cast_nonpos, Int.cast_nonpos, sub_nonpos, sub_nonpos]
    exact le_total _ _
  case name => rw [nameCmp_nonpos, nameCmp_nonpos]; exact le_total _ _

/-- C8: the sort step of `applyFilters` is stable for every sort key —
two products the comparator ties (comparator value 0) keep their relative
input order — and in particular sorting by rating-descending keeps the
relative order of two products of equal rating (missing ratings read as
0). -/
theorem sortProducts_stable :
    (∀ (k : SortKey) (a b : Product) (l : List Product),
      [a, b].Sublist l → sortCmp k a b = 0 →
      [a, b].Sublist (sortProducts k l)) ∧
    (∀ (a b : Product) (l : List Product),
      [a, b].Sublist l → a.rating.getD 0 = b.rating.getD 0 →
      [a, b].Sublist (sortProducts SortKey.rating l)) := by
  have main : ∀ (k : SortKey) (a b : Product) (l : List Product),
      [a, b].Sublist l → sortCmp k a b = 0 →
      [a, b].Sublist (sortProducts k l) := by
    intro k a b l hsub htie
    exact List.sublist_mergeSort (sortLe_trans k) (sortLe_total k)
      (by simp [List.pairwise_cons]; exact le_of_eq htie) hsub
  refine ⟨main, fun a b l hsub hr => main .rating a b l hsub ?_⟩
  simp only [sortCmp]
  rw [hr, sub_self]

/-- Witness for C8: in the catalog `[a, b, c]` with `a` and `b` rated 4 and
`c` rated 5, rating-descending sorting keeps `a` before `b`. -/
theorem sortProducts_stable_witness :
    [sampleProduct 1 "a" 10 (some 4), sampleProduct 2 "b" 20 (some 4)].Sublist
      (sortProducts SortKey.rating
        [sampleProduct 1 "a" 10 (some 4), sampleProduct 2 "b" 20 (some 4),
         sampleProduct 3 "c" 30 (some 5)]) :=
  sortProducts_stable.2 (sampleProduct 1 "a" 10 (some 4))
    (sampleProduct 2 "b" 20 (some 4))
    [sampleProduct 1 "a" 10 (some 4), sampleProduct 2 "b" 20 (some 4),
     sampleProduct 3 "c" 30 (some 5)]
    (by decide) (by decide)

/-- C9: the price filter keeps any product whose price sits exactly on
either end of the (well-formed) range — both bounds are inclusive. -/
theorem priceFilter_inclusive (fs : FilterSpec) (l : List Product) (p : Product)
    (hmem : p ∈ l) (hr : fs.priceRange.1 ≤ fs.priceRange.2)
    (hp : p.price = fs.priceRange.1 ∨ p.price = fs.priceRange.2) :
    p ∈ priceFilter fs l := by
  unfold priceFilter
  rw [List.mem_filter]
  refine ⟨hmem, ?_⟩
  rcases hp with h | h <;> simp [h, hr]

/-- Witness for C9: with range `[0, 1000]`, a product priced exactly 1000
is kept. -/
theorem priceFilter_inclusive_witness :
    sampleProduct 7 "g" 1000 none ∈
      priceFilter initialFilters [sampleProduct 7 "g" 1000 none] :=
  priceFilter_inclusive initialFilters [sampleProduct 7 "g" 1000 none]
    (sampleProduct 7 "g" 1000 none) (by decide) (by decide) (Or.inr (by decide))

/-- C10: the initial `filters` state and the state `clearFilters` restores
are the same value with price range `[0, 1000]`; consequently, with no
user-selected filters and an empty search term, every product priced
above 1000 is excluded from the visible result set. -/
theorem initialFilters_exclude_expensive :
    initialFilters = clearedFilters ∧
    ∀ (l : List Product) (k : SortKey) (p : Product), 1000 < p.price →
      p ∉ applyFilters l "" initialFilters k := by
  refine ⟨rfl, fun l k p hp hmem => ?_⟩
  unfold applyFilters sortProducts at hmem
  rw [List.mem_mergeSort] at hmem
  rw [show ∀ x, stockFilter initialFilters x = x from fun x => by
    simp [stockFilter, initialFilters]] at hmem
  unfold priceFilter at hmem
  rw [List.mem_filter] at hmem
  have hle : p.price ≤ 1000 := by
    have h2 := hmem.2
    simp [initialFilters] at h2
    exact h2.2
  exact absurd hle (not_le.mpr hp)

/-- Witness for C10: a product priced 1001 does not appear in the visible
set under the initial filter state. -/
theorem initialFilters_exclude_expensive_witness :
    sampleProduct 9 "x" 1001 none ∉
      applyFilters [sampleProduct 9 "x" 1001 none] "" initialFilters
        SortKey.name :=
  initialFilters_exclude_expensive.2 [sampleProduct 9 "x" 1001 none]
    SortKey.name (sampleProduct 9 "x" 1001 none) (by decide)

theorem foldl_add_map (f : DbCartItem → Rat) (l : List DbCartItem) (acc : Rat) :
    l.foldl (fun total item => total + f item) acc = acc + (l.map f).sum := by
  induction l generalizing acc with
  | nil => simp
  | cons h t ih => simp [ih, add_assoc]

/-- C4: the totals of the cart view are a pure function of the lines and
the product map — the subtotal is the sum of `price × quantity` over the
lines whose product reference resolves (an unresolved line contributes
zero), the tax is 8% of the subtotal, and the total is subtotal plus
tax. -/
theorem computeTotals_spec :
    (∀ (cartItems : List DbCartItem) (products : List (Nat × Product)),
      getSubtotal cartItems products = specSubtotal cartItems products) ∧
    (∀ (cartItems : List DbCartItem) (products : List (Nat × Product)),
      getTax cartItems products = getSubtotal cartItems products * (8 / 100)) ∧
    (∀ (cartItems : List DbCartItem) (products : List (Nat × Product)),
      getTotal cartItems products =
        getSubtotal cartItems products + getTax cartItems products) := by
  refine ⟨fun cartItems products => ?_, fun _ _ => rfl, fun _ _ => rfl⟩
  have h := foldl_add_map
    (fun item =>
      match products.lookup item.product_id with
      | some product => product.price * item.quantity
      | none => 0)
    cartItems 0
  simpa [getSubtotal, specSubtotal] using h

/-- C5: adding the same product twice starting from an empty cart yields a
single line of quantity 2 — for the anonymous local cart and for the
authenticated remote cart alike. -/
theorem addToCart_twice (p : Product) (userEmail : String) (freshId : Nat) :
    addToCartAnon (addToCartAnon [] p) p =
      [{ guestSnapshot p with quantity := 2 }] ∧
    (addToCartAuth (addToCartAuth [] userEmail p freshId).1 userEmail p
        (addToCartAuth [] userEmail p freshId).2).1 =
      [{ id := freshId
         product_id := p.id
         quantity := 2
         user_email := userEmail }] := by
  constructor
  · simp [addToCartAnon, guestSnapshot, incFirst]
  · simp [addToCartAuth, updateQty]

/-- C6: `setQuantity` with 0 or -1 leaves the cart unchanged, `setQuantity`
for an absent product reference is a no-op, and `removeLine` for an absent
reference is a no-op — in both the anonymous and the authenticated
branches. -/
theorem cart_boundary_noops :
    (∀ (cart : List GuestLine) (pid : Nat),
      setQuantityAnon cart pid 0 = cart ∧ setQuantityAnon cart pid (-1) = cart) ∧
    (∀ (db : List DbCartItem) (userEmail : String) (pid : Nat),
      setQuantityAuth db userEmail pid 0 = db ∧
      setQuantityAuth db userEmail pid (-1) = db) ∧
    (∀ (cart : List GuestLine) (pid : Nat) (newQuantity : Int),
      (∀ it ∈ cart, it.product_id ≠ pid) →
      setQuantityAnon cart pid newQuantity = cart ∧
      removeLineAnon cart pid = cart) ∧
    (∀ (db : List DbCartItem) (userEmail : String) (pid : Nat)
        (newQuantity : Int),
      (∀ it ∈ db, it.user_email = userEmail → it.product_id ≠ pid) →
      setQuantityAuth db userEmail pid newQuantity = db ∧
      removeLineAuth db userEmail pid = db) := by
  refine ⟨fun cart pid => ⟨rfl, rfl⟩, fun db userEmail pid => ⟨rfl, rfl⟩,
    fun cart pid newQuantity h => ⟨?_, ?_⟩,
    fun db userEmail pid newQuantity h => ?_⟩
  · unfold setQuantityAnon
    by_cases hq : newQuantity < 1
    · rw [if_pos hq]
    · rw [if_neg hq]
      have : ∀ it ∈ cart,
          (if it.product_id == pid
           then { it with quantity := newQuantity.toNat } else it) = it := by
        intro it hit
        rw [if_neg]
        simp only [beq_iff_eq]
        exact h it hit
      calc cart.map _ = cart.map id := List.map_congr_left this
        _ = cart := List.map_id cart
  · unfold removeLineAnon
    rw [List.filter_eq_self]
    intro it hit
    simp only [Bool.not_eq_eq_eq_not, Bool.not_true, beq_eq_false_iff_ne]
    exact h it hit
  · have hnone : (db.filter (fun it => it.user_email == userEmail)).find?
        (fun item => item.product_id == pid) = none := by
      rw [List.find?_eq_none]
      intro x hx
      rw [List.mem_filter] at hx
      simp only [beq_iff_eq] at hx ⊢
      exact h x hx.1 hx.2
    constructor
    · unfold setQuantityAuth
      by_cases hq : newQuantity < 1
      · rw [if_pos hq]
      · rw [if_neg hq, hnone]
    · unfold removeLineAuth
      rw [hnone]

/-- A one-line guest cart used by the witness theorems. -/
def sampleGuestCart : List GuestLine :=
  [{ product_id := 1
     quantity := 1
     name := "n"
     price := 5
     image_url := ""
     brand := none }]

/-- A one-line remote cart used by the witness theorems. -/
def sampleDb : List DbCartItem :=
  [{ id := 10
     product_id := 1
     quantity := 1
     user_email := "u@x" }]

/-- Witness for C6: querying product reference 2 in carts holding only
product reference 1 changes nothing. -/
theorem cart_boundary_noops_witness :
    setQuantityAnon sampleGuestCart 2 3 = sampleGuestCart ∧
    setQuantityAuth sampleDb "u@x" 2 3 = sampleDb ∧
    removeLineAuth sampleDb "u@x" 2 = sampleDb :=
  ⟨(cart_boundary_noops.2.2.1 sampleGuestCart 2 3 (by decide)).1,
   (cart_boundary_noops.2.2.2 sampleDb "u@x" 2 3 (by decide)).1,
   (cart_boundary_noops.2.2.2 sampleDb "u@x" 2 3 (by decide)).2⟩

/-- Counterexample for C2 as claimed: when a single per-line merge
operation fails, `Promise.all` rejects inside the `try` block before
`localStorage.removeItem('anonymousCart')` runs, so the guest cart blob is
NOT cleared (while the error toast does fire once). -/
theorem mergeEffects_failure_keeps_blob :
    (mergeCartsEffects [false]).localStorageCleared = false ∧
    (mergeCartsEffects [false]).errorToast = true := by
  decide

/-- C2 amended: the `cartUpdated` notification is emitted and `isMerging`
is reset on every completion (the `finally` block), and a per-line failure
is surfaced exactly once as the error toast; but the guest cart blob is
cleared only when every per-line operation succeeded — a per-line failure
skips the clearing. -/
theorem mergeEffects_spec (results : List Bool) :
    (mergeCartsEffects results).cartUpdatedEvent = true ∧
    (mergeCartsEffects results).isMergingAfter = false ∧
    (mergeCartsEffects results).localStorageCleared = results.all (fun b => b) ∧
    (mergeCartsEffects results).errorToast = !results.all (fun b => b) := by
  unfold mergeCartsEffects promiseAll
  by_cases h : results.all (fun b => b) = true <;> simp [h]

/-- Counterexample for C3 as claimed: with a non-empty guest cart and a
logged-in user, `loadUser` invokes the merge even while `isMerging` is
`true` — no in-progress flag is consulted before the invocation. -/
theorem loadUser_guard_not_checked :
    loadUserInvokesMerge sampleGuestCart (some "u@x") true = true := by
  decide

/-- C3 amended: `loadUser` invokes the merge exactly when the guest cart
blob is non-empty and the current user has an email; the decision is
independent of the `isMerging` flag (the flag is set during a merge but
never checked before invocation), and an empty guest cart or a missing
user never triggers a merge. -/
theorem loadUser_merge_condition :
    (∀ (localCart : List GuestLine) (userEmail : Option String) (m₁ m₂ : Bool),
      loadUserInvokesMerge localCart userEmail m₁ =
        loadUserInvokesMerge localCart userEmail m₂) ∧
    (∀ (userEmail : Option String) (m : Bool),
      loadUserInvokesMerge [] userEmail m = false) ∧
    (∀ (localCart : List GuestLine) (m : Bool),
      loadUserInvokesMerge localCart none m = false) := by
  refine ⟨fun _ _ _ _ => rfl, fun userEmail m => ?_, fun localCart m => ?_⟩
  · simp [loadUserInvokesMerge]
  · simp [loadUserInvokesMerge]

/-- The remote lines belonging to one product reference and one email. -/
def matchesLine (gpid : Nat) (userEmail : String) (it : DbCartItem) : Bool :=
  it.product_id == gpid && it.user_email == userEmail

theorem mapGet_some {l : List DbCartItem} {pid : Nat} {r : DbCartItem}
    (h : mapGet l pid = some r) : r ∈ l ∧ r.product_id = pid := by
  unfold mapGet at h
  have hm := List.mem_of_find?_eq_some h
  have hp := List.find?_some h
  rw [List.mem_reverse] at hm
  rw [beq_iff_eq] at hp
  exact ⟨hm, hp⟩

theorem mapGet_none {l : List DbCartItem} {pid : Nat}
    (h : mapGet l pid = none) : ∀ it ∈ l, it.product_id ≠ pid := by
  unfold mapGet at h
  rw [List.find?_eq_none] at h
  intro it hit
  have := h it (List.mem_reverse.mpr hit)
  rwa [beq_iff_eq] at this

theorem updateQty_find?_id (db : List DbCartItem) (i q x : Nat) :
    (updateQty db i q).find? (fun it => it.id == x) =
      (db.find? (fun it => it.id == x)).map
        (fun it => if it.id == i then { it with quantity := q } else it) := by
  induction db with
  | nil => rfl
  | cons hd tl ih =>
    show ((if hd.id == i then { hd with quantity := q } else hd) ::
        updateQty tl i q).find? (fun it => it.id == x) = _
    have hid : ((if hd.id == i then { hd with quantity := q } else hd) :
        DbCartItem).id = hd.id := by
      by_cases hh : (hd.id == i) = true <;> simp [hh]
    by_cases h : (hd.id == x) = true
    · rw [@List.find?_cons_of_pos _ (fun it => it.id == x) _ (updateQty tl i q)
          (by simp only [hid]; exact h),
        @List.find?_cons_of_pos _ (fun it => it.id == x) hd tl h]
      rfl
    · rw [@List.find?_cons_of_neg _ (fun it => it.id == x) _ (updateQty tl i q)
          (by simp only [hid]; exact h),
        @List.find?_cons_of_neg _ (fun it => it.id == x) hd tl h]
      exact ih

theorem updateQty_filter (db : List DbCartItem) (i q : Nat)
    (P : DbCartItem → Bool)
    (hP : ∀ it qq, P { it with quantity := qq } = P it) :
    (updateQty db i q).filter P = (db.filter P).map
      (fun it => if it.id == i then { it with quantity := q } else it) := by
  unfold updateQty
  rw [List.filter_map]
  congr 1
  refine List.filter_congr (fun a _ => ?_)
  show P (if a.id == i then { a with quantity := q } else a) = P a
  by_cases h : (a.id == i) = true <;> simp [h, hP]

theorem find?_id_of_nodup (db : List DbCartItem) (r : DbCartItem)
    (hids : (db.map (fun it => it.id)).Nodup) (hr : r ∈ db) :
    db.find? (fun it => it.id == r.id) = some r := by
  induction db with
  | nil => cases hr
  | cons hd tl ih =>
    rw [List.map_cons, List.nodup_cons] at hids
    rcases List.mem_cons.mp hr with rfl | hmem
    · exact @List.find?_cons_of_pos _ (fun it => it.id == r.id) r tl (by simp)
    · have hne : (hd.id == r.id) = false := by
        rw [beq_eq_false_iff_ne]
        intro h
        exact hids.1 (h ▸ List.mem_map_of_mem (fun it => it.id) hmem)
      rw [@List.find?_cons_of_neg _ (fun it => it.id == r.id) hd tl
          (by simp [hne])]
      exact ih hids.2 hmem

theorem merge_fold_find?_update (snap : List DbCartItem) (userEmail : String)
    (r : DbCartItem) (l : List GuestLine) (s : List DbCartItem × Nat)
    (hfound : ∃ qq, s.1.find? (fun it => it.id == r.id) =
      some { r with quantity := qq }) :
    ∃ qq, ((l.foldl (mergeStep snap userEmail) s).1).find?
      (fun it => it.id == r.id) = some { r with quantity := qq } := by
  induction l generalizing s with
  | nil => exact hfound
  | cons g t ih =>
    rw [List.foldl_cons]
    apply ih
    obtain ⟨qq, hq⟩ := hfound
    cases hm : mapGet snap g.product_id with
    | none =>
      simp only [mergeStep, hm]
      rw [List.find?_append, hq]
      exact ⟨qq, rfl⟩
    | some r' =>
      simp only [mergeStep, hm]
      rw [updateQty_find?_id, hq]
      by_cases h : r.id = r'.id
      · exact ⟨r'.quantity + g.quantity, by simp [h]⟩
      · exact ⟨qq, by simp [h]⟩

theorem merge_fold_find?_frozen (db0 snap : List DbCartItem)
    (userEmail : String)
    (hsnap : ∀ it ∈ snap, it ∈ db0)
    (hids : (db0.map (fun it => it.id)).Nodup)
    (r : DbCartItem) (hr : r ∈ db0)
    (l : List GuestLine) (hl : ∀ g ∈ l, g.product_id ≠ r.product_id)
    (v : DbCartItem) (s : List DbCartItem × Nat)
    (hfound : s.1.find? (fun it => it.id == r.id) = some v) :
    ((l.foldl (mergeStep snap userEmail) s).1).find?
      (fun it => it.id == r.id) = some v := by
  induction l generalizing s with
  | nil => exact hfound
  | cons g t ih =>
    rw [List.foldl_cons]
    refine ih (fun g' hg' => hl g' (List.mem_cons_of_mem _ hg')) _ ?_
    cases hm : mapGet snap g.product_id with
    | none =>
      simp only [mergeStep, hm]
      rw [List.find?_append, hfound]
      rfl
    | some r' =>
      simp only [mergeStep, hm]
      rw [updateQty_find?_id, hfound]
      have hrm := mapGet_some hm
      have hne : r'.id ≠ r.id := by
        intro h
        have heq : r' = r := List.inj_on_of_nodup_map hids (hsnap r' hrm.1) hr h
        exact hl g (List.mem_cons_self g t) (by rw [← hrm.2, heq])
      have hvid : v.id ≠ r'.id := by
        have hv := List.find?_some hfound
        rw [beq_iff_eq] at hv
        rw [hv]
        exact fun h => hne h.symm
      simp [hvid]

theorem merge_fold_filter_nil (snap : List DbCartItem) (userEmail : String)
    (gpid : Nat) (l : List GuestLine) (hl : ∀ g ∈ l, g.product_id ≠ gpid)
    (s : List DbCartItem × Nat)
    (hnil : s.1.filter (matchesLine gpid userEmail) = []) :
    ((l.foldl (mergeStep snap userEmail) s).1).filter
      (matchesLine gpid userEmail) = [] := by
  induction l generalizing s with
  | nil => exact hnil
  | cons g t ih =>
    rw [List.foldl_cons]
    refine ih (fun g' hg' => hl g' (List.mem_cons_of_mem _ hg')) _ ?_
    cases hm : mapGet snap g.product_id with
    | some r' =>
      simp only [mergeStep, hm]
      rw [updateQty_filter s.1 r'.id (r'.quantity + g.quantity)
        (matchesLine gpid userEmail) (fun it qq => rfl), hnil]
      rfl
    | none =>
      simp only [mergeStep, hm]
      rw [List.filter_append, hnil]
      have hfalse : matchesLine gpid userEmail
          (⟨s.2, g.product_id, g.quantity, userEmail⟩ : DbCartItem) = false := by
        simp [matchesLine, hl g (List.mem_cons_self g t)]
      simp [hfalse]

theorem merge_fold_snd_mono (snap : List DbCartItem) (userEmail : String)
    (l : List GuestLine) (s : List DbCartItem × Nat) :
    s.2 ≤ (l.foldl (mergeStep snap userEmail) s).2 := by
  induction l generalizing s with
  | nil => exact le_refl _
  | cons g t ih =>
    rw [List.foldl_cons]
    refine le_trans ?_ (ih _)
    cases hm : mapGet snap g.product_id with
    | some r' => simp [mergeStep, hm]
    | none => simp [mergeStep, hm]

theorem merge_fold_filter_single (db0 snap : List DbCartItem)
    (userEmail : String)
    (hsnap : ∀ it ∈ snap, it ∈ db0)
    (freshId : Nat) (hfresh : ∀ it ∈ db0, it.id < freshId)
    (gpid : Nat) (l : List GuestLine) (hl : ∀ g ∈ l, g.product_id ≠ gpid)
    (v : DbCartItem) (hvid : freshId ≤ v.id)
    (s : List DbCartItem × Nat)
    (hone : s.1.filter (matchesLine gpid userEmail) = [v]) :
    ((l.foldl (mergeStep snap userEmail) s).1).filter
      (matchesLine gpid userEmail) = [v] := by
  induction l generalizing s with
  | nil => exact hone
  | cons g t ih =>
    rw [List.foldl_cons]
    refine ih (fun g' hg' => hl g' (List.mem_cons_of_mem _ hg')) _ ?_
    cases hm : mapGet snap g.product_id with
    | some r' =>
      simp only [mergeStep, hm]
      rw [updateQty_filter s.1 r'.id (r'.quantity + g.quantity)
        (matchesLine gpid userEmail) (fun it qq => rfl), hone]
      have hlt := hfresh r' (hsnap r' (mapGet_some hm).1)
      have hne : v.id ≠ r'.id := by omega
      simp [hne]
    | none =>
      simp only [mergeStep, hm]
      rw [List.filter_append, hone]
      have hfalse : matchesLine gpid userEmail
          (⟨s.2, g.product_id, g.quantity, userEmail⟩ : DbCartItem) = false := by
        simp [matchesLine, hl g (List.mem_cons_self g t)]
      simp [hfalse]

/-- C1: for every guest line `g` handled by `mergeCarts` — with distinct
guest product references, distinct store line ids, and the store assigning
genuinely fresh ids to created lines — if a remote line `r` for `g`'s
product reference and the email exists, the merged store holds under `r`'s
store id exactly `r` with quantity `r.quantity + g.quantity` (additive,
not overwriting); if none exists, the merged store holds exactly one line
for that product reference and email: a new line with exactly the guest
quantity. -/
theorem mergeCarts_additive (localCart : List GuestLine) (userEmail : String)
    (db : List DbCartItem) (freshId : Nat)
    (hpids : (localCart.map (fun g => g.product_id)).Nodup)
    (hids : (db.map (fun it => it.id)).Nodup)
    (hfresh : ∀ it ∈ db, it.id < freshId)
    (g : GuestLine) (hg : g ∈ localCart) :
    (∀ r, mapGet (db.filter (fun it => it.user_email == userEmail))
        g.product_id = some r →
      (mergeCarts localCart userEmail db freshId).find?
          (fun it => it.id == r.id) =
        some { r with quantity := r.quantity + g.quantity }) ∧
    (mapGet (db.filter (fun it => it.user_email == userEmail))
        g.product_id = none →
      ∃ newId, (mergeCarts localCart userEmail db freshId).filter
          (matchesLine g.product_id userEmail) =
        [⟨newId, g.product_id, g.quantity, userEmail⟩]) := by
  obtain ⟨l1, l2, rfl⟩ := List.append_of_mem hg
  rw [List.map_append, List.map_cons] at hpids
  have hl1 : ∀ g' ∈ l1, g'.product_id ≠ g.product_id := by
    intro g' hg' h
    rcases List.nodup_append.mp hpids with ⟨_, _, hdisj⟩
    exact hdisj (List.mem_map_of_mem _ hg')
      (by rw [← h]; exact List.mem_cons_self _ _)
  have hl2 : ∀ g' ∈ l2, g'.product_id ≠ g.product_id := by
    intro g' hg' h
    rcases List.nodup_append.mp hpids with ⟨_, hcons, _⟩
    rw [List.nodup_cons] at hcons
    exact hcons.1 (h ▸ List.mem_map_of_mem (fun x => x.product_id) hg')
  simp only [mergeCarts, List.foldl_append, List.foldl_cons]
  set snap := db.filter (fun it => it.user_email == userEmail) with hsnap
  set s1 := List.foldl (mergeStep snap userEmail) (db, freshId) l1 with hs1
  constructor
  · intro r hmr
    have hrsnap := mapGet_some hmr
    have hrdb : r ∈ db := List.mem_of_mem_filter hrsnap.1
    have hinit : db.find? (fun it => it.id == r.id) = some r :=
      find?_id_of_nodup db r hids hrdb
    obtain ⟨qq, hq⟩ := merge_fold_find?_update snap userEmail r l1
      (db, freshId) ⟨r.quantity, by rw [hinit]⟩
    have h2 : (mergeStep snap userEmail s1 g).1.find?
        (fun it => it.id == r.id) =
        some { r with quantity := r.quantity + g.quantity } := by
      simp only [mergeStep, hmr]
      rw [updateQty_find?_id, hq]
      simp
    have hl2r : ∀ g' ∈ l2, g'.product_id ≠ r.product_id := by
      intro g' hg'
      rw [hrsnap.2]
      exact hl2 g' hg'
    exact merge_fold_find?_frozen db snap userEmail
      (fun it hit => List.mem_of_mem_filter hit) hids r hrdb l2 hl2r _
      (mergeStep snap userEmail s1 g) h2
  · intro hmn
    have hnil0 : db.filter (matchesLine g.product_id userEmail) = [] := by
      rw [List.filter_eq_nil_iff]
      intro it hit hmatch
      unfold matchesLine at hmatch
      rw [Bool.and_eq_true, beq_iff_eq, beq_iff_eq] at hmatch
      have hsnapmem : it ∈ snap := by
        rw [hsnap, List.mem_filter]
        exact ⟨hit, by rw [beq_iff_eq]; exact hmatch.2⟩
      exact mapGet_none hmn it hsnapmem hmatch.1
    have h1 := merge_fold_filter_nil snap userEmail g.product_id l1 hl1
      (db, freshId) hnil0
    have h2 : (mergeStep snap userEmail s1 g).1.filter
        (matchesLine g.product_id userEmail) =
        [⟨s1.2, g.product_id, g.quantity, userEmail⟩] := by
      simp only [mergeStep, hmn]
      rw [List.filter_append, h1]
      have htrue : matchesLine g.product_id userEmail
          (⟨s1.2, g.product_id, g.quantity, userEmail⟩ : DbCartItem) = true := by
        simp [matchesLine]
      simp [htrue]
    have hmono := merge_fold_snd_mono snap userEmail l1 (db, freshId)
    exact ⟨s1.2, merge_fold_filter_single db snap userEmail
      (fun it hit => List.mem_of_mem_filter hit) freshId hfresh g.product_id
      l2 hl2 (⟨s1.2, g.product_id, g.quantity, userEmail⟩ : DbCartItem) hmono
      (mergeStep snap userEmail s1 g) h2⟩

/-- The guest line used by the C1 witness: product reference 5,
quantity 2. -/
def mergeGuest : GuestLine :=
  { product_id := 5
    quantity := 2
    name := "A"
    price := 10
    image_url := ""
    brand := none }

/-- The remote cart used by the C1 witness: one line for product 5,
quantity 3, owned by `u@x`. -/
def mergeDb : List DbCartItem :=
  [{ id := 0
     product_id := 5
     quantity := 3
     user_email := "u@x" }]

/-- Witness for C1: merging guest `{product 5, qty 2}` into remote
`{product 5, qty 3}` leaves the remote line at quantity 5; merging it into
an empty remote store creates exactly one line with quantity 2. -/
theorem mergeCarts_additive_witness :
    (mergeCarts [mergeGuest] "u@x" mergeDb 1).find? (fun it => it.id == 0) =
      some (⟨0, 5, 5, "u@x"⟩ : DbCartItem) ∧
    ∃ newId, (mergeCarts [mergeGuest] "u@x" [] 0).filter
      (matchesLine 5 "u@x") = [(⟨newId, 5, 2, "u@x"⟩ : DbCartItem)] := by
  constructor
  · exact (mergeCarts_additive [mergeGuest] "u@x" mergeDb 1 (by decide)
      (by decide) (by decide) mergeGuest (by decide)).1
      (⟨0, 5, 3, "u@x"⟩ : DbCartItem) (by decide)
  · exact (mergeCarts_additive [mergeGuest] "u@x" [] 0 (by decide)
      (by decide) (by decide) mergeGuest (by decide)).2 (by decide)
